import Mathlib

/-!
Shallow embedding of the repository's non-trivial code:

1. The hand-rolled Wilcoxon signed-rank statistic from
   "Chapter 2 / Module 4 / 4. Non-parametric Tests.ipynb":

     median = 30
     diffs = data - median
     signs = dict()
     absolute_diffs = np.array([])
     for diff in diffs:
         absolute_diffs = np.append(absolute_diffs, np.abs(diff))
         if diff < 0:
             signs[np.abs(diff)] = '-'
         else:
             signs[np.abs(diff)] = '+'
     sorted_absolute_diffs = np.sort(absolute_diffs)
     s_plus = 0
     for idx, diff in enumerate(sorted_absolute_diffs):
         if signs[diff] == '+':
             s_plus += idx+1

   Real numbers are modelled by rationals; the dictionary `signs`
   (later writes overwrite) is modelled by a lookup that takes the sign of
   the LAST difference in the list whose absolute value equals the key.

2. The `precision` and `recall` functions from the metrics notebook
   (src/unnamed/part_000), with Python's ZeroDivisionError modelled by
   an `Option` result.
-/

inductive Sign where
  | pos : Sign
  | neg : Sign
deriving DecidableEq

/-- Sign recorded by the notebook loop: `'-'` when `diff < 0`, else `'+'`
(so a zero difference records `'+'`). -/
def signOf (d : ℚ) : Sign := if d < 0 then Sign.neg else Sign.pos

/-- The list `diffs = data - median`. -/
def diffsOf (data : List ℚ) (median : ℚ) : List ℚ := data.map (fun x => x - median)

/-- The list `absolute_diffs`. -/
def absDiffsOf (diffs : List ℚ) : List ℚ := diffs.map (fun d => |d|)

/-- First match of key `k` in a list of differences: the sign of the first
`d` with `|d| = k`. -/
def lookupSign : List ℚ → ℚ → Option Sign
  | [], _ => none
  | d :: rest, k => if |d| = k then some (signOf d) else lookupSign rest k

/-- The dictionary `signs` as a lookup: the value stored at key `k` is the
sign of the last difference written with `np.abs(diff) = k` (later dict
writes overwrite earlier ones: first match on the reversed write order),
`none` when the key is absent. -/
def signFor (diffs : List ℚ) (k : ℚ) : Option Sign :=
  lookupSign diffs.reverse k

/-- The array `sorted_absolute_diffs` (ascending sort). -/
def sortedAbsOf (data : List ℚ) (median : ℚ) : List ℚ :=
  List.insertionSort (· ≤ ·) (absDiffsOf (diffsOf data median))

/-- Contribution of one enumerated entry `(idx, diff)` of the sorted array
to a rank sum: `idx + 1` when the stored sign matches, else 0. -/
def rankTerm (diffs : List ℚ) (s : Sign) (p : ℕ × ℚ) : ℕ :=
  if signFor diffs p.2 = some s then p.1 + 1 else 0

/-- The statistic `s_plus`: sum of `idx+1` over enumerated sorted absolute
differences whose stored sign is `'+'`. -/
def s_plus (data : List ℚ) (median : ℚ) : ℕ :=
  ((sortedAbsOf data median).enum.map (rankTerm (diffsOf data median) Sign.pos)).sum

/-- The analogous negative-rank sum: sum of `idx+1` over entries whose stored
sign is `'-'`. -/
def s_minus (data : List ℚ) (median : ℚ) : ℕ :=
  ((sortedAbsOf data median).enum.map (rankTerm (diffsOf data median) Sign.neg)).sum

/-- Number of observations whose difference from the center is nonzero
(the `N` used by several spec sentences). -/
def nonzeroCount (data : List ℚ) (median : ℚ) : ℕ :=
  ((diffsOf data median).filter (fun d => decide (d ≠ 0))).length

/-- The reference sample of 17 delivery-time offsets shown in the notebook
output (`offset_data["0"]`). -/
def refData : List ℚ :=
  [57.925694, 40.574152, 30.232974, 20.853756, 21.355134, 14.037427,
   31.696030, 5.784466, 65.960599, 50.994944, 30.970240, 9.928767,
   25.292288, 12.350119, 28.262646, 20.945894, 54.300015]

/-- Simp lemma making `Sign` constructor clashes visible to `norm_num`. -/
theorem sign_neg_eq_pos_iff : (Sign.neg = Sign.pos) ↔ False := by simp

/-- Simp lemma making `Sign` constructor clashes visible to `norm_num`. -/
theorem sign_pos_eq_neg_iff : (Sign.pos = Sign.neg) ↔ False := by simp

/-- Opposite sign, used to state the reflection symmetry. -/
def flipSign : Sign → Sign
  | Sign.pos => Sign.neg
  | Sign.neg => Sign.pos

/-- Reflection of every observation about the hypothesized center; it negates
every difference. -/
def reflect (data : List ℚ) (median : ℚ) : List ℚ := data.map (fun x => 2 * median - x)

/-- Position of the first occurrence of a value in a list. -/
def idxOf : List ℚ → ℚ → ℕ
  | [], _ => 0
  | a :: t, v => if a = v then 0 else idxOf t v + 1

/-- Rank of each observation: position (1-based) of its absolute difference in
the ascending sort, matching the notebook's ranks column when absolute
differences are distinct. -/
def obsRanks (data : List ℚ) (median : ℚ) : List ℕ :=
  (diffsOf data median).map (fun d => idxOf (sortedAbsOf data median) |d| + 1)

theorem lookupSign_eq_some_of_mem (l : List ℚ) (k : ℚ) (h : ∃ d ∈ l, |d| = k) :
    ∃ d, d ∈ l ∧ |d| = k ∧ lookupSign l k = some (signOf d) := by
  induction l with
  | nil => simp at h
  | cons d rest ih =>
    by_cases hd : |d| = k
    · exact ⟨d, List.mem_cons_self d rest, hd, by simp [lookupSign, hd]⟩
    · obtain ⟨e, he, hek⟩ := h
      rcases List.mem_cons.mp he with rfl | he'
      · exact absurd hek hd
      · obtain ⟨f, hf, hfk, hlook⟩ := ih ⟨e, he', hek⟩
        exact ⟨f, List.mem_cons_of_mem d hf, hfk, by simp [lookupSign, hd, hlook]⟩

theorem signFor_eq_some (diffs : List ℚ) (k : ℚ) (h : ∃ d ∈ diffs, |d| = k) :
    ∃ d, d ∈ diffs ∧ |d| = k ∧ signFor diffs k = some (signOf d) := by
  obtain ⟨e, he, hek⟩ := h
  obtain ⟨f, hf, hfk, hlook⟩ :=
    lookupSign_eq_some_of_mem diffs.reverse k ⟨e, List.mem_reverse.mpr he, hek⟩
  exact ⟨f, List.mem_reverse.mp hf, hfk, hlook⟩

theorem mem_sortedAbs_exists_diff (data : List ℚ) (median : ℚ) {v : ℚ}
    (hv : v ∈ sortedAbsOf data median) :
    ∃ d ∈ diffsOf data median, |d| = v := by
  have hperm := List.perm_insertionSort (fun x1 x2 => x1 ≤ x2) (absDiffsOf (diffsOf data median))
  have hv' : v ∈ absDiffsOf (diffsOf data median) := hperm.mem_iff.mp hv
  simpa [absDiffsOf] using hv'

theorem sortedAbs_length (data : List ℚ) (median : ℚ) :
    (sortedAbsOf data median).length = data.length := by
  rw [sortedAbsOf,
    (List.perm_insertionSort (fun x1 x2 => x1 ≤ x2) (absDiffsOf (diffsOf data median))).length_eq]
  simp [absDiffsOf, diffsOf]

theorem snd_mem_of_mem_enum {l : List ℚ} {p : ℕ × ℚ} (hp : p ∈ l.enum) : p.2 ∈ l := by
  rw [List.enum_eq_zip_range] at hp
  exact (List.of_mem_zip hp).2

theorem range_gauss (n : ℕ) : 2 * (((List.range n).map (fun i => i + 1)).sum) = n * (n + 1) := by
  induction n with
  | zero => simp
  | succ m ih =>
    rw [List.range_succ, List.map_append, List.sum_append]
    simp only [List.map_cons, List.map_nil, List.sum_cons, List.sum_nil]
    calc 2 * (((List.range m).map (fun i => i + 1)).sum + (m + 1 + 0))
        = 2 * ((List.range m).map (fun i => i + 1)).sum + 2 * (m + 1) := by ring
      _ = m * (m + 1) + 2 * (m + 1) := by rw [ih]
      _ = (m + 1) * (m + 1 + 1) := by ring

theorem sum_enum_ranks (l : List ℚ) :
    2 * ((l.enum.map (fun p => p.1 + 1)).sum) = l.length * (l.length + 1) := by
  rw [show (fun p : ℕ × ℚ => p.1 + 1) = ((fun i => i + 1) ∘ Prod.fst) from rfl,
    ← List.map_map, List.enum_map_fst]
  exact range_gauss l.length

theorem rankTerm_pos_add_neg (data : List ℚ) (median : ℚ) {p : ℕ × ℚ}
    (hp : p ∈ (sortedAbsOf data median).enum) :
    rankTerm (diffsOf data median) Sign.pos p + rankTerm (diffsOf data median) Sign.neg p
      = p.1 + 1 := by
  obtain ⟨d, _, _, hsf⟩ :=
    signFor_eq_some _ _ (mem_sortedAbs_exists_diff data median (snd_mem_of_mem_enum hp))
  cases hsign : signOf d <;> simp [rankTerm, hsf, hsign]

theorem total_rank_sum (data : List ℚ) (median : ℚ) :
    2 * (s_plus data median + s_minus data median) = data.length * (data.length + 1) := by
  have hsum : s_plus data median + s_minus data median
      = ((sortedAbsOf data median).enum.map (fun p => p.1 + 1)).sum := by
    rw [s_plus, s_minus, ← List.sum_map_add]
    exact congrArg List.sum
      (List.map_congr_left (fun p hp => rankTerm_pos_add_neg data median hp))
  rw [hsum, sum_enum_ranks, sortedAbs_length]

theorem s_plus_add_s_minus (data : List ℚ) (median : ℚ) :
    s_plus data median + s_minus data median = data.length * (data.length + 1) / 2 := by
  have h := total_rank_sum data median
  generalize data.length * (data.length + 1) = m at h ⊢
  omega

theorem s_plus_of_all_pos (data : List ℚ) (median : ℚ) (h : ∀ x ∈ data, median < x) :
    s_plus data median = data.length * (data.length + 1) / 2 := by
  have hterm : ∀ p ∈ (sortedAbsOf data median).enum,
      rankTerm (diffsOf data median) Sign.pos p = p.1 + 1 := by
    intro p hp
    obtain ⟨d, hd, _, hsf⟩ :=
      signFor_eq_some _ _ (mem_sortedAbs_exists_diff data median (snd_mem_of_mem_enum hp))
    have hd0 : 0 < d := by
      simp only [diffsOf, List.mem_map] at hd
      obtain ⟨x, hx, rfl⟩ := hd
      exact sub_pos.mpr (h x hx)
    simp [rankTerm, hsf, signOf, not_lt.mpr hd0.le]
  have h2 : 2 * s_plus data median = data.length * (data.length + 1) := by
    rw [s_plus, List.map_congr_left hterm, sum_enum_ranks, sortedAbs_length]
  generalize hm : data.length * (data.length + 1) = m at h2 ⊢
  omega

theorem s_plus_of_all_neg (data : List ℚ) (median : ℚ) (h : ∀ x ∈ data, x < median) :
    s_plus data median = 0 := by
  rw [s_plus]
  apply List.sum_eq_zero
  intro x hx
  simp only [List.mem_map] at hx
  obtain ⟨p, hp, rfl⟩ := hx
  obtain ⟨d, hd, _, hsf⟩ :=
    signFor_eq_some _ _ (mem_sortedAbs_exists_diff data median (snd_mem_of_mem_enum hp))
  have hd0 : d < 0 := by
    simp only [diffsOf, List.mem_map] at hd
    obtain ⟨x, hx, rfl⟩ := hd
    exact sub_neg.mpr (h x hx)
  simp [rankTerm, hsf, signOf, hd0]

theorem signOf_neg {d : ℚ} (hd : d ≠ 0) : signOf (-d) = flipSign (signOf d) := by
  rcases lt_trichotomy d 0 with hlt | heq | hgt
  · simp [signOf, flipSign, hlt, not_lt.mpr (neg_pos.mpr hlt).le]
  · exact absurd heq hd
  · simp [signOf, flipSign, not_lt.mpr hgt.le, neg_neg_of_pos hgt]

theorem lookupSign_map_neg (l : List ℚ) (k : ℚ) (hl : ∀ d ∈ l, d ≠ 0) :
    lookupSign (l.map Neg.neg) k = (lookupSign l k).map flipSign := by
  induction l with
  | nil => simp [lookupSign]
  | cons d rest ih =>
    have hd0 : d ≠ 0 := hl d (List.mem_cons_self d rest)
    by_cases hd : |d| = k
    · simp [lookupSign, abs_neg, hd, signOf_neg hd0]
    · simp [lookupSign, abs_neg, hd,
        ih (fun e he => hl e (List.mem_cons_of_mem d he))]

theorem signFor_map_neg (diffs : List ℚ) (k : ℚ) (h : ∀ d ∈ diffs, d ≠ 0) :
    signFor (diffs.map Neg.neg) k = (signFor diffs k).map flipSign := by
  rw [signFor, signFor, ← List.map_reverse]
  exact lookupSign_map_neg _ _ (fun d hd => h d (List.mem_reverse.mp hd))

theorem diffsOf_reflect (data : List ℚ) (median : ℚ) :
    diffsOf (reflect data median) median = (diffsOf data median).map Neg.neg := by
  simp only [diffsOf, reflect, List.map_map]
  apply List.map_congr_left
  intro x _
  simp only [Function.comp_apply]
  ring

theorem sortedAbsOf_reflect (data : List ℚ) (median : ℚ) :
    sortedAbsOf (reflect data median) median = sortedAbsOf data median := by
  rw [sortedAbsOf, sortedAbsOf, diffsOf_reflect]
  congr 1
  simp only [absDiffsOf, List.map_map]
  apply List.map_congr_left
  intro d _
  simp [abs_neg]

theorem s_plus_reflect (data : List ℚ) (median : ℚ) (h : ∀ x ∈ data, x ≠ median) :
    s_plus (reflect data median) median = s_minus data median := by
  have hnz : ∀ d ∈ diffsOf data median, d ≠ 0 := by
    intro d hd
    simp only [diffsOf, List.mem_map] at hd
    obtain ⟨x, hx, rfl⟩ := hd
    exact sub_ne_zero.mpr (h x hx)
  rw [s_plus, s_minus, sortedAbsOf_reflect, diffsOf_reflect]
  apply congrArg List.sum
  apply List.map_congr_left
  intro p hp
  obtain ⟨d, hd, _, hsf⟩ :=
    signFor_eq_some _ _ (mem_sortedAbs_exists_diff data median (snd_mem_of_mem_enum hp))
  rw [rankTerm, rankTerm, signFor_map_neg _ _ hnz, hsf]
  cases hs : signOf d <;> simp [flipSign]

theorem s_minus_reflect (data : List ℚ) (median : ℚ) (h : ∀ x ∈ data, x ≠ median) :
    s_minus (reflect data median) median = s_plus data median := by
  have hnz : ∀ d ∈ diffsOf data median, d ≠ 0 := by
    intro d hd
    simp only [diffsOf, List.mem_map] at hd
    obtain ⟨x, hx, rfl⟩ := hd
    exact sub_ne_zero.mpr (h x hx)
  rw [s_plus, s_minus, sortedAbsOf_reflect, diffsOf_reflect]
  apply congrArg List.sum
  apply List.map_congr_left
  intro p hp
  obtain ⟨d, hd, _, hsf⟩ :=
    signFor_eq_some _ _ (mem_sortedAbs_exists_diff data median (snd_mem_of_mem_enum hp))
  rw [rankTerm, rankTerm, signFor_map_neg _ _ hnz, hsf]
  cases hs : signOf d <;> simp [flipSign]

theorem map_idxOf_self (s : List ℚ) (h : s.Nodup) :
    s.map (fun v => idxOf s v) = List.range s.length := by
  induction s with
  | nil => simp
  | cons a t ih =>
    have hat : a ∉ t := (List.nodup_cons.mp h).1
    have ht : t.Nodup := (List.nodup_cons.mp h).2
    have hhead : idxOf (a :: t) a = 0 := by simp [idxOf]
    have htail : t.map (fun v => idxOf (a :: t) v) = t.map (fun v => idxOf t v + 1) := by
      apply List.map_congr_left
      intro v hv
      have hav : ¬ a = v := fun hh => hat (hh ▸ hv)
      simp [idxOf, hav]
    rw [List.map_cons, hhead, List.length_cons, List.range_succ_eq_map, htail,
      show (fun v => idxOf t v + 1) = (Nat.succ ∘ fun v => idxOf t v) from rfl,
      ← List.map_map, ih ht]

theorem obsRanks_perm (data : List ℚ) (median : ℚ)
    (h : (absDiffsOf (diffsOf data median)).Nodup) :
    (obsRanks data median).Perm ((List.range data.length).map (fun i => i + 1)) := by
  have hperm : (sortedAbsOf data median).Perm (absDiffsOf (diffsOf data median)) :=
    List.perm_insertionSort (fun x1 x2 => x1 ≤ x2) _
  have hs : (sortedAbsOf data median).Nodup := hperm.symm.nodup h
  have hlen := sortedAbs_length data median
  have h1 : obsRanks data median
      = (absDiffsOf (diffsOf data median)).map
          (fun v => idxOf (sortedAbsOf data median) v + 1) := by
    simp [obsRanks, absDiffsOf, List.map_map]
  have h3 : (sortedAbsOf data median).map (fun v => idxOf (sortedAbsOf data median) v + 1)
      = (List.range data.length).map (fun i => i + 1) := by
    rw [show (fun v => idxOf (sortedAbsOf data median) v + 1)
        = ((fun i => i + 1) ∘ fun v => idxOf (sortedAbsOf data median) v) from rfl,
      ← List.map_map, map_idxOf_self _ hs, hlen]
  rw [h1, ← h3]
  exact hperm.symm.map _

theorem zero_mem_diffsOf (data : List ℚ) (median : ℚ) (h : median ∈ data) :
    (0 : ℚ) ∈ diffsOf data median := by
  simp only [diffsOf, List.mem_map]
  exact ⟨median, h, sub_self median⟩

theorem lookupSign_zero (l : List ℚ) (h : (0 : ℚ) ∈ l) :
    lookupSign l 0 = some Sign.pos := by
  induction l with
  | nil => simp at h
  | cons d rest ih =>
    by_cases hd : |d| = 0
    · have hd0 : d = 0 := abs_eq_zero.mp hd
      simp [lookupSign, hd, hd0, signOf]
    · have hd0 : d ≠ 0 := fun h0 => hd (by simp [h0])
      have h0 : (0 : ℚ) ∈ rest := by
        rcases List.mem_cons.mp h with heq | hr
        · exact absurd heq.symm hd0
        · exact hr
      simp [lookupSign, hd, ih h0]

theorem signFor_zero (diffs : List ℚ) (h : (0 : ℚ) ∈ diffs) :
    signFor diffs 0 = some Sign.pos :=
  lookupSign_zero _ (List.mem_reverse.mpr h)

theorem mem_enumFrom_of_get (l : List ℚ) (n i : ℕ) (h : i < l.length) :
    (n + i, l.get ⟨i, h⟩) ∈ l.enumFrom n := by
  induction l generalizing n i with
  | nil => simp at h
  | cons a t ih =>
    cases i with
    | zero => simp [List.enumFrom]
    | succ j =>
      have hj : j < t.length := Nat.lt_of_succ_lt_succ h
      show (n + (j + 1), (a :: t).get ⟨j + 1, h⟩) ∈ (n, a) :: t.enumFrom (n + 1)
      have hget : (a :: t).get ⟨j + 1, h⟩ = t.get ⟨j, hj⟩ := rfl
      rw [hget, show n + (j + 1) = n + 1 + j by omega]
      exact List.mem_cons_of_mem (n, a) (ih (n + 1) j hj)

theorem mem_enum_of_get (l : List ℚ) (i : ℕ) (h : i < l.length) :
    (i, l.get ⟨i, h⟩) ∈ l.enum := by
  have := mem_enumFrom_of_get l 0 i h
  simpa [List.enum] using this

theorem one_le_s_plus_of_center_mem (data : List ℚ) (median : ℚ) (h : median ∈ data) :
    1 ≤ s_plus data median := by
  have h0d : (0 : ℚ) ∈ diffsOf data median := zero_mem_diffsOf data median h
  have h0abs : (0 : ℚ) ∈ absDiffsOf (diffsOf data median) := by
    simp only [absDiffsOf, List.mem_map]
    exact ⟨0, h0d, abs_zero⟩
  have h0s : (0 : ℚ) ∈ sortedAbsOf data median :=
    (List.perm_insertionSort (fun x1 x2 => x1 ≤ x2) _).mem_iff.mpr h0abs
  obtain ⟨⟨i, hi⟩, hget⟩ := List.mem_iff_get.mp h0s
  have hmem : (i, (0 : ℚ)) ∈ (sortedAbsOf data median).enum := by
    have := mem_enum_of_get (sortedAbsOf data median) i hi
    rwa [hget] at this
  have hterm : rankTerm (diffsOf data median) Sign.pos (i, (0 : ℚ)) = i + 1 := by
    simp [rankTerm, signFor_zero _ h0d]
  have hmem2 : (i + 1)
      ∈ (sortedAbsOf data median).enum.map (rankTerm (diffsOf data median) Sign.pos) := by
    rw [← hterm]
    exact List.mem_map_of_mem _ hmem
  have hle := List.single_le_sum
    (l := (sortedAbsOf data median).enum.map (rankTerm (diffsOf data median) Sign.pos))
    (fun x _ => Nat.zero_le x) _ hmem2
  rw [s_plus]
  omega

/-- Loop of the notebook's `precision`: fold over zipped (label, prediction)
pairs accumulating (tp, fp), counting a pair only when the prediction is 1. -/
def precisionLoop : List (ℤ × ℤ) → ℕ × ℕ → ℕ × ℕ
  | [], c => c
  | lp :: rest, c =>
      precisionLoop rest
        (if lp.2 = 1 then (if lp.1 = 1 then (c.1 + 1, c.2) else (c.1, c.2 + 1)) else c)

/-- The notebook's `precision`: `tp / (tp + fp)`, with Python's
ZeroDivisionError modelled as `none` when `tp + fp = 0`. -/
def precision (labels predictions : List ℤ) : Option ℚ :=
  let c := precisionLoop (labels.zip predictions) (0, 0)
  if c.1 + c.2 = 0 then none else some ((c.1 : ℚ) / ((c.1 : ℚ) + (c.2 : ℚ)))

/-- Loop of the notebook's `recall`: fold over zipped (label, prediction)
pairs accumulating (tp, fn), counting a pair only when the label is 1. -/
def recallLoop : List (ℤ × ℤ) → ℕ × ℕ → ℕ × ℕ
  | [], c => c
  | lp :: rest, c =>
      recallLoop rest
        (if lp.1 = 1 then (if lp.2 = 1 then (c.1 + 1, c.2) else (c.1, c.2 + 1)) else c)

/-- The notebook's `recall`: `tp / (tp + fn)`, with Python's
ZeroDivisionError modelled as `none` when `tp + fn = 0`. -/
def «recall» (labels predictions : List ℤ) : Option ℚ :=
  let c := recallLoop (labels.zip predictions) (0, 0)
  if c.1 + c.2 = 0 then none else some ((c.1 : ℚ) / ((c.1 : ℚ) + (c.2 : ℚ)))

theorem precisionLoop_sum (l : List (ℤ × ℤ)) (c : ℕ × ℕ) :
    (precisionLoop l c).1 + (precisionLoop l c).2
      = c.1 + c.2 + l.countP (fun lp => decide (lp.2 = 1)) := by
  induction l generalizing c with
  | nil => simp [precisionLoop]
  | cons lp rest ih =>
    by_cases h2 : lp.2 = 1
    · by_cases h1 : lp.1 = 1 <;>
        simp [precisionLoop, h2, h1, ih, List.countP_cons] <;> omega
    · simp [precisionLoop, h2, ih, List.countP_cons]

theorem recallLoop_sum (l : List (ℤ × ℤ)) (c : ℕ × ℕ) :
    (recallLoop l c).1 + (recallLoop l c).2
      = c.1 + c.2 + l.countP (fun lp => decide (lp.1 = 1)) := by
  induction l generalizing c with
  | nil => simp [recallLoop]
  | cons lp rest ih =>
    by_cases h1 : lp.1 = 1
    · by_cases h2 : lp.2 = 1 <;>
        simp [recallLoop, h1, h2, ih, List.countP_cons] <;> omega
    · simp [recallLoop, h1, ih, List.countP_cons]

theorem precision_eq_none_iff (labels predictions : List ℤ) :
    precision labels predictions = none
      ↔ ∀ lp ∈ labels.zip predictions, lp.2 ≠ 1 := by
  have hsum : (precisionLoop (labels.zip predictions) (0, 0)).1
      + (precisionLoop (labels.zip predictions) (0, 0)).2
      = (labels.zip predictions).countP (fun lp => decide (lp.2 = 1)) := by
    simpa using precisionLoop_sum (labels.zip predictions) (0, 0)
  have hiff : precision labels predictions = none
      ↔ (precisionLoop (labels.zip predictions) (0, 0)).1
          + (precisionLoop (labels.zip predictions) (0, 0)).2 = 0 := by
    simp only [precision]
    split
    · next h => simpa using h
    · next h => simpa using h
  rw [hiff]
  constructor
  · intro hc lp hlp
    have hcount : (labels.zip predictions).countP (fun lp => decide (lp.2 = 1)) = 0 := by
      omega
    have := List.countP_eq_zero.mp hcount lp hlp
    simpa using this
  · intro hall
    have hcount : (labels.zip predictions).countP (fun lp => decide (lp.2 = 1)) = 0 :=
      List.countP_eq_zero.mpr (fun lp hlp => by simpa using hall lp hlp)
    omega

theorem recall_eq_none_iff (labels predictions : List ℤ) :
    «recall» labels predictions = none
      ↔ ∀ lp ∈ labels.zip predictions, lp.1 ≠ 1 := by
  have hsum : (recallLoop (labels.zip predictions) (0, 0)).1
      + (recallLoop (labels.zip predictions) (0, 0)).2
      = (labels.zip predictions).countP (fun lp => decide (lp.1 = 1)) := by
    simpa using recallLoop_sum (labels.zip predictions) (0, 0)
  have hiff : «recall» labels predictions = none
      ↔ (recallLoop (labels.zip predictions) (0, 0)).1
          + (recallLoop (labels.zip predictions) (0, 0)).2 = 0 := by
    simp only [«recall»]
    split
    · next h => simpa using h
    · next h => simpa using h
  rw [hiff]
  constructor
  · intro hc lp hlp
    have hcount : (labels.zip predictions).countP (fun lp => decide (lp.1 = 1)) = 0 := by
      omega
    have := List.countP_eq_zero.mp hcount lp hlp
    simpa using this
  · intro hall
    have hcount : (labels.zip predictions).countP (fun lp => decide (lp.1 = 1)) = 0 :=
      List.countP_eq_zero.mpr (fun lp hlp => by simpa using hall lp hlp)
    omega

/-! ### Claim theorems -/

/-- C1: for the concrete reference sample of 17 observations with hypothesized
center 30, the RankStatistic computation (differences, absolute differences,
ascending ranks 1..17, sum of ranks of positive differences) returns s+ = 76. -/
theorem c1_ref_sample_s_plus : s_plus refData 30 = 76 := by
  norm_num [s_plus, sortedAbsOf, absDiffsOf, diffsOf, refData, signFor, lookupSign,
    signOf, rankTerm, List.insertionSort, List.orderedInsert, List.enum, List.enumFrom,
    abs_of_nonpos, abs_of_nonneg, sign_neg_eq_pos_iff, sign_pos_eq_neg_iff]

/-- C2: the code does NOT assign tied absolute differences the arithmetic mean
of the ranks the group spans. On the sample [31, 29] with center 30, both
observations are tied at absolute difference 1; mid-rank assignment would give
each rank 1.5 and s+ = 1.5. Instead the code assigns the integer ranks 1 and 2
and the sign dictionary collapses the tie to the sign of the last-processed
observation, so s+ is 0 for [31, 29] but 3 for the reordered sample [29, 31]. -/
theorem c2_tie_collapse_eval :
    s_plus [(31 : ℚ), 29] 30 = 0 ∧ s_plus [(29 : ℚ), 31] 30 = 3 := by
  constructor <;>
    norm_num [s_plus, sortedAbsOf, absDiffsOf, diffsOf, signFor, lookupSign,
      signOf, rankTerm, List.insertionSort, List.orderedInsert, List.enum, List.enumFrom,
      abs_of_nonpos, abs_of_nonneg, sign_neg_eq_pos_iff, sign_pos_eq_neg_iff]

/-- C3 counterexample: with the sample [30, 31] and center 30 the difference 0
is kept and signed '+', so s+ + s− = 3 while N(N+1)/2 = 1 for N = 1 nonzero
difference. -/
theorem c3_counterexample :
    ¬ (s_plus [(30 : ℚ), 31] 30 + s_minus [(30 : ℚ), 31] 30
        = nonzeroCount [(30 : ℚ), 31] 30 * (nonzeroCount [(30 : ℚ), 31] 30 + 1) / 2) := by
  have h1 : s_plus [(30 : ℚ), 31] 30 = 3 := by
    norm_num [s_plus, sortedAbsOf, absDiffsOf, diffsOf, signFor, lookupSign,
      signOf, rankTerm, List.insertionSort, List.orderedInsert, List.enum, List.enumFrom,
      abs_of_nonpos, abs_of_nonneg, sign_neg_eq_pos_iff, sign_pos_eq_neg_iff]
  have h2 : s_minus [(30 : ℚ), 31] 30 = 0 := by
    norm_num [s_minus, sortedAbsOf, absDiffsOf, diffsOf, signFor, lookupSign,
      signOf, rankTerm, List.insertionSort, List.orderedInsert, List.enum, List.enumFrom,
      abs_of_nonpos, abs_of_nonneg, sign_neg_eq_pos_iff, sign_pos_eq_neg_iff]
  have h3 : nonzeroCount [(30 : ℚ), 31] 30 = 1 := by
    norm_num [nonzeroCount, diffsOf, List.filter]
  rw [h1, h2, h3]
  norm_num

/-- C3 (amended): for every sample, s+ plus the negative-rank sum equals
M(M+1)/2 where M is the TOTAL number of observations (zero differences are
kept and signed '+', so N does not exclude them). -/
theorem c3_total_rank_sum (data : List ℚ) (median : ℚ) :
    s_plus data median + s_minus data median = data.length * (data.length + 1) / 2 :=
  s_plus_add_s_minus data median

/-- C4: the code has no error path for degenerate input. On the empty sample it
silently returns s+ = 0, and on a sample all of whose differences are zero
(here [30] with center 30) it silently returns the numeric value
N(N+1)/2 = 1; no explicit failure is reported to the caller. -/
theorem c4_degenerate_eval :
    s_plus ([] : List ℚ) 30 = 0 ∧ s_plus [(30 : ℚ)] 30 = 1 := by
  constructor <;>
    norm_num [s_plus, sortedAbsOf, absDiffsOf, diffsOf, signFor, lookupSign,
      signOf, rankTerm, List.insertionSort, List.orderedInsert, List.enum, List.enumFrom,
      abs_of_nonpos, abs_of_nonneg, sign_neg_eq_pos_iff, sign_pos_eq_neg_iff]

/-- C5 counterexample: with the sample [30, 31] and center 30, s+ = 3 exceeds
N(N+1)/2 = 1 for N = 1 ranked nonzero-difference observation, because the code
also ranks the zero difference and signs it '+'. -/
theorem c5_counterexample :
    ¬ (0 ≤ s_plus [(30 : ℚ), 31] 30
        ∧ s_plus [(30 : ℚ), 31] 30
            ≤ nonzeroCount [(30 : ℚ), 31] 30 * (nonzeroCount [(30 : ℚ), 31] 30 + 1) / 2) := by
  have h1 : s_plus [(30 : ℚ), 31] 30 = 3 := by
    norm_num [s_plus, sortedAbsOf, absDiffsOf, diffsOf, signFor, lookupSign,
      signOf, rankTerm, List.insertionSort, List.orderedInsert, List.enum, List.enumFrom,
      abs_of_nonpos, abs_of_nonneg, sign_neg_eq_pos_iff, sign_pos_eq_neg_iff]
  have h3 : nonzeroCount [(30 : ℚ), 31] 30 = 1 := by
    norm_num [nonzeroCount, diffsOf, List.filter]
  rw [h1, h3]
  norm_num

/-- C5 (amended): for every sample, 0 ≤ s+ ≤ M(M+1)/2 where M is the TOTAL
number of observations (the code ranks every observation, zero differences
included). -/
theorem c5_bounds (data : List ℚ) (median : ℚ) :
    0 ≤ s_plus data median
      ∧ s_plus data median ≤ data.length * (data.length + 1) / 2 := by
  refine ⟨Nat.zero_le _, ?_⟩
  have h := s_plus_add_s_minus data median
  omega

/-- C6: if every difference is strictly positive then s+ = N(N+1)/2, and if
every difference is strictly negative then s+ = 0. -/
theorem c6_boundary (data : List ℚ) (median : ℚ) :
    ((∀ x ∈ data, median < x) → s_plus data median = data.length * (data.length + 1) / 2)
      ∧ ((∀ x ∈ data, x < median) → s_plus data median = 0) :=
  ⟨s_plus_of_all_pos data median, s_plus_of_all_neg data median⟩

/-- C6 witness: the boundary claim applied to the all-positive sample [31, 32]
and the all-negative sample [28, 29] with center 30. -/
theorem c6_boundary_witness :
    (∀ x ∈ [(31 : ℚ), 32], (30 : ℚ) < x) ∧ s_plus [(31 : ℚ), 32] 30 = 3
      ∧ (∀ x ∈ [(28 : ℚ), 29], x < (30 : ℚ)) ∧ s_plus [(28 : ℚ), 29] 30 = 0 := by
  have h1 : ∀ x ∈ [(31 : ℚ), 32], (30 : ℚ) < x := by
    intro x hx
    fin_cases hx <;> norm_num
  have h2 : ∀ x ∈ [(28 : ℚ), 29], x < (30 : ℚ) := by
    intro x hx
    fin_cases hx <;> norm_num
  refine ⟨h1, ?_, h2, (c6_boundary [(28 : ℚ), 29] 30).2 h2⟩
  have := (c6_boundary [(31 : ℚ), 32] 30).1 h1
  simpa using this

/-- C7 counterexample: reflecting the sample [30, 31] about the center 30 does
NOT swap the two rank sums, because the zero difference keeps sign '+' on both
sides: the reflected s+ is 1 while the original s− is 0. -/
theorem c7_counterexample :
    ¬ (s_plus (reflect [(30 : ℚ), 31] 30) 30 = s_minus [(30 : ℚ), 31] 30
        ∧ s_minus (reflect [(30 : ℚ), 31] 30) 30 = s_plus [(30 : ℚ), 31] 30) := by
  have hr : reflect [(30 : ℚ), 31] 30 = [(30 : ℚ), 29] := by
    norm_num [reflect]
  have h1 : s_plus [(30 : ℚ), 29] 30 = 1 := by
    norm_num [s_plus, sortedAbsOf, absDiffsOf, diffsOf, signFor, lookupSign,
      signOf, rankTerm, List.insertionSort, List.orderedInsert, List.enum, List.enumFrom,
      abs_of_nonpos, abs_of_nonneg, sign_neg_eq_pos_iff, sign_pos_eq_neg_iff]
  have h2 : s_minus [(30 : ℚ), 31] 30 = 0 := by
    norm_num [s_minus, sortedAbsOf, absDiffsOf, diffsOf, signFor, lookupSign,
      signOf, rankTerm, List.insertionSort, List.orderedInsert, List.enum, List.enumFrom,
      abs_of_nonpos, abs_of_nonneg, sign_neg_eq_pos_iff, sign_pos_eq_neg_iff]
  rw [hr]
  intro hcontra
  rw [h1, h2] at hcontra
  exact absurd hcontra.1 (by norm_num)

/-- C7 (amended): provided no observation equals the center (no zero
difference), reflecting every observation about the center — equivalently,
negating every difference — exchanges the two rank sums exactly. -/
theorem c7_reflect_swaps (data : List ℚ) (median : ℚ) (h : ∀ x ∈ data, x ≠ median) :
    s_plus (reflect data median) median = s_minus data median
      ∧ s_minus (reflect data median) median = s_plus data median :=
  ⟨s_plus_reflect data median h, s_minus_reflect data median h⟩

/-- C7 witness: the swap applied to the zero-free sample [31, 28] with
center 30. -/
theorem c7_reflect_swaps_witness :
    (∀ x ∈ [(31 : ℚ), 28], x ≠ (30 : ℚ))
      ∧ s_plus (reflect [(31 : ℚ), 28] 30) 30 = s_minus [(31 : ℚ), 28] 30
      ∧ s_minus (reflect [(31 : ℚ), 28] 30) 30 = s_plus [(31 : ℚ), 28] 30 := by
  have h : ∀ x ∈ [(31 : ℚ), 28], x ≠ (30 : ℚ) := by
    intro x hx
    fin_cases hx <;> norm_num
  exact ⟨h, c7_reflect_swaps [(31 : ℚ), 28] 30 h⟩

/-- C8: when the absolute differences are pairwise distinct, every observation
maps to exactly one difference, one absolute difference and one rank, and the
ranks are a permutation of 1..N. -/
theorem c8_ranks_perm (data : List ℚ) (median : ℚ)
    (h : (absDiffsOf (diffsOf data median)).Nodup) :
    (diffsOf data median).length = data.length
      ∧ (absDiffsOf (diffsOf data median)).length = data.length
      ∧ (obsRanks data median).length = data.length
      ∧ (obsRanks data median).Perm ((List.range data.length).map (fun i => i + 1)) :=
  ⟨by simp [diffsOf], by simp [absDiffsOf, diffsOf], by simp [obsRanks, diffsOf],
    obsRanks_perm data median h⟩

/-- C8 witness: the rank permutation claim applied to the sample [31, 28] with
center 30, whose absolute differences 1 and 2 are distinct. -/
theorem c8_ranks_perm_witness :
    (absDiffsOf (diffsOf [(31 : ℚ), 28] 30)).Nodup
      ∧ (obsRanks [(31 : ℚ), 28] 30).Perm
          ((List.range ([(31 : ℚ), 28]).length).map (fun i => i + 1)) := by
  have h : (absDiffsOf (diffsOf [(31 : ℚ), 28] 30)).Nodup := by
    norm_num [absDiffsOf, diffsOf, abs_of_nonpos, abs_of_nonneg]
  exact ⟨h, (c8_ranks_perm [(31 : ℚ), 28] 30 h).2.2.2⟩

/-- C9: the precision computation fails (divides by zero, tp + fp = 0) exactly
when no zipped prediction is positive, and the recall computation fails
(tp + fn = 0) exactly when no zipped label is positive; these are the only
failure modes the two metric functions admit. -/
theorem c9_divzero_iff :
    (∀ labels predictions : List ℤ,
        (precision labels predictions = none
          ↔ ∀ lp ∈ labels.zip predictions, lp.2 ≠ 1))
      ∧ (∀ labels predictions : List ℤ,
          («recall» labels predictions = none
            ↔ ∀ lp ∈ labels.zip predictions, lp.1 ≠ 1)) :=
  ⟨precision_eq_none_iff, recall_eq_none_iff⟩

/-- C10: an observation exactly equal to the hypothesized center yields a zero
difference that is signed '+', stays in the ranked set (nothing is dropped),
and contributes its rank to s+ — the rank total is still M(M+1)/2 over ALL
observations, and s+ is at least 1. -/
theorem c10_zero_diff_pos (data : List ℚ) (median : ℚ) (h : median ∈ data) :
    signFor (diffsOf data median) 0 = some Sign.pos
      ∧ (sortedAbsOf data median).length = data.length
      ∧ 1 ≤ s_plus data median
      ∧ s_plus data median + s_minus data median
          = data.length * (data.length + 1) / 2 :=
  ⟨signFor_zero _ (zero_mem_diffsOf data median h), sortedAbs_length data median,
    one_le_s_plus_of_center_mem data median h, s_plus_add_s_minus data median⟩

/-- C10 witness: the zero-difference claim applied to the sample [30, 31] with
center 30, which contains the center. -/
theorem c10_zero_diff_pos_witness :
    ((30 : ℚ) ∈ [(30 : ℚ), 31])
      ∧ signFor (diffsOf [(30 : ℚ), 31] 30) 0 = some Sign.pos
      ∧ 1 ≤ s_plus [(30 : ℚ), 31] 30 := by
  have h : (30 : ℚ) ∈ [(30 : ℚ), 31] := by simp
  have hc := c10_zero_diff_pos [(30 : ℚ), 31] 30 h
  exact ⟨h, hc.1, hc.2.2.1⟩
